import Mathlib

/-!
Verification of the speaker-diarization core of this repository
(`src-tauri/python/diarization_inference.py`) against its specification.

The aggregation loop of `SpeakerDiarization.diarize_audio` and the
comparator `SpeakerDiarization.compare_speakers` are shallowly embedded.
External collaborators (the pyannote pipeline producing the raw turn
stream, and the embedding model wrapped by `_extract_speaker_embedding`)
are modelled as oracle parameters, exactly as the spec designates them
"external collaborators".  Times are modelled by `ℚ` (the Python code uses
floats; the spec's tolerance statements are satisfied by exact rational
arithmetic), and the comparator's vectors by `List ℝ` since it takes a
Euclidean norm.

CPython's `set` iteration order (line `unique_speakers = list(set(...))`)
is unspecified (hash-randomised for strings), so the embedding takes the
set-to-list conversion as a parameter `pyset` constrained only by what
Python guarantees: the output is duplicate-free and has the same members
as the input (`SetContract`).
-/

/-- A raw speaker turn as yielded by `diarization.itertracks(yield_label=True)`:
`(speaker, turn.start, turn.end)`.  The field `stop` models the Python
attribute `end` (a Lean keyword). -/
structure Turn where
  speaker : String
  start : ℚ
  stop : ℚ
deriving DecidableEq, Repr

/-- One element of the `segments` list built at lines 85-91 of
`diarization_inference.py`. -/
structure Segment where
  speaker_id : String
  start : ℚ
  stop : ℚ
  duration : ℚ
deriving DecidableEq, Repr

/-- The per-speaker statistics dictionary built at lines 110-114:
`{"total_duration": ..., "num_segments": ..., "embedding": ...}`.
`embedding` is the stored fingerprint, or `[]` when absent
(`speaker_embeddings.get(speaker, [])`). -/
structure SpeakerStat where
  total_duration : ℚ
  num_segments : ℕ
  embedding : List ℚ
deriving DecidableEq, Repr

/-- The dictionary returned by `diarize_audio` (lines 116-121), plus the
instrumentation field `attempts`, which records, in input order, each turn
on which the loop called `_extract_speaker_embedding` (line 96).
`attempts` is not part of the Python return value; it makes the
extraction-attempt behaviour of the loop statable.
`speaker_stats` is an association list: the Python dict is built by
inserting each element of `unique_speakers` once, in order. -/
structure DiarizationResult where
  segments : List Segment
  speakers : List String
  num_speakers : ℕ
  speaker_stats : List (String × SpeakerStat)
  attempts : List Turn
deriving DecidableEq, Repr

/-- `segment = {"speaker_id": speaker, "start": turn.start, "end": turn.end,
"duration": turn.end - turn.start}` (lines 85-90). -/
def mkSegment (t : Turn) : Segment :=
  ⟨t.speaker, t.start, t.stop, t.stop - t.start⟩

/-- State threaded through the `for turn, _, speaker in ...` loop
(lines 84-100): the `segments` list, the `speaker_embeddings` dict
(modelled as a function, since only membership and `get` are used),
and the instrumentation list of attempted extractions. -/
structure LoopOut where
  segments : List Segment
  emb : String → Option (List ℚ)
  attempts : List Turn

/-- The loop of lines 84-100 of `diarize_audio`.  `extr start end` is the
oracle for `self._extract_speaker_embedding(audio_path, start, end)`:
`some e` when it returns an embedding, `none` when it returns `None`
(its internal `try/except` swallows every error).  Per iteration: append
the segment; then, if `speaker not in speaker_embeddings`, attempt
extraction and store the result only when it is not `None`. -/
def diarizeLoop (extr : ℚ → ℚ → Option (List ℚ)) :
    List Turn → (String → Option (List ℚ)) → LoopOut
  | [], emb => ⟨[], emb, []⟩
  | t :: ts, emb =>
    match emb t.speaker with
    | some _ =>
      let rest := diarizeLoop extr ts emb
      ⟨mkSegment t :: rest.segments, rest.emb, rest.attempts⟩
    | none =>
      match extr t.start t.stop with
      | some e =>
        let rest := diarizeLoop extr ts
          (fun s => if s = t.speaker then some e else emb s)
        ⟨mkSegment t :: rest.segments, rest.emb, t :: rest.attempts⟩
      | none =>
        let rest := diarizeLoop extr ts emb
        ⟨mkSegment t :: rest.segments, rest.emb, t :: rest.attempts⟩

/-- `SpeakerDiarization.diarize_audio` (lines 51-121), with the external
turn source already evaluated to `turns` and the embedding extractor
modelled by `extr`.  `pyset` models `list(set(...))` at line 103.
Lines 106-114 build `speaker_stats` by iterating `unique_speakers`. -/
def diarize_audio (pyset : List String → List String)
    (extr : ℚ → ℚ → Option (List ℚ)) (turns : List Turn) : DiarizationResult :=
  let out := diarizeLoop extr turns (fun _ => none)
  let unique_speakers := pyset (out.segments.map Segment.speaker_id)
  let speaker_stats := unique_speakers.map (fun speaker =>
    let speaker_segments := out.segments.filter (fun s => s.speaker_id == speaker)
    (speaker, (⟨(speaker_segments.map Segment.duration).sum,
                speaker_segments.length,
                (out.emb speaker).getD []⟩ : SpeakerStat)))
  ⟨out.segments, unique_speakers, unique_speakers.length, speaker_stats, out.attempts⟩

/-- What CPython guarantees about `list(set(l))`: a duplicate-free list
with exactly the members of `l`.  The iteration order is unspecified
(string hashing is randomised), so it is NOT part of the contract. -/
def SetContract (pyset : List String → List String) : Prop :=
  ∀ l : List String, (pyset l).Nodup ∧ ∀ x, x ∈ pyset l ↔ x ∈ l

/-- A `SetContract`-conforming order for `list(set(...))` other than
first-seen order: dedup, then reverse. -/
def revDedup (l : List String) : List String :=
  l.dedup.reverse

/-- The extraction-attempt pattern the loop produces for one speaker's
turn sub-sequence: the first turn is always attempted, and attempts
continue, one per turn, until one succeeds; after a success no further
turn is attempted. -/
def attemptsSpec (extr : ℚ → ℚ → Option (List ℚ)) : List Turn → List Turn
  | [] => []
  | t :: ts =>
    t :: (match extr t.start t.stop with
          | some _ => []
          | none => attemptsSpec extr ts)

/-- Possible comparator failures.  `valueError` models the `ValueError`
numpy's `np.dot` raises at line 181 when the two 1-D arrays have
different lengths; nothing in `compare_speakers` catches it. -/
inductive CompareError where
  | valueError
deriving DecidableEq, Repr

/-- `np.dot` on two 1-D arrays: the sum of pairwise products. -/
def dot : List ℝ → List ℝ → ℝ
  | x :: xs, y :: ys => x * y + dot xs ys
  | _, _ => 0

/-- `np.linalg.norm`: the Euclidean norm. -/
noncomputable def norm (a : List ℝ) : ℝ :=
  Real.sqrt (dot a a)

/-- `SpeakerDiarization.compare_speakers` (lines 165-188).  `np.dot`
raises `ValueError` for 1-D inputs of different lengths, which is the
only failure path; otherwise the function returns
`(dot/(norm1*norm2) + 1) / 2` unconditionally — there is no zero-norm
check (in Python a zero norm yields NaN via `0.0/0.0`; in this
real-valued model, division by zero yields the junk value `0`). -/
noncomputable def compare_speakers (a b : List ℝ) : Except CompareError ℝ :=
  if a.length ≠ b.length then
    Except.error CompareError.valueError
  else
    Except.ok ((dot a b / (norm a * norm b) + 1) / 2)

/-- The turn list of the spec's §8 aggregation scenario:
`[("A",0,2),("B",2,5),("A",5,6)]`. -/
def scenarioTurns : List Turn :=
  [⟨"A", 0, 2⟩, ⟨"B", 2, 5⟩, ⟨"A", 5, 6⟩]


/-! ### Helper lemmas about the aggregation loop -/

theorem diarizeLoop_segments (extr : ℚ → ℚ → Option (List ℚ)) :
    ∀ (l : List Turn) (emb : String → Option (List ℚ)),
      (diarizeLoop extr l emb).segments = l.map mkSegment := by
  intro l
  induction l with
  | nil => intro emb; rfl
  | cons t ts ih =>
    intro emb
    simp only [diarizeLoop]
    cases h : emb t.speaker with
    | some e => simp [ih]
    | none =>
      cases h2 : extr t.start t.stop with
      | some e => simp [ih]
      | none => simp [ih]

theorem diarizeLoop_attempts_of_some (extr : ℚ → ℚ → Option (List ℚ)) (s : String)
    (fp : List ℚ) :
    ∀ (l : List Turn) (emb : String → Option (List ℚ)), emb s = some fp →
      (diarizeLoop extr l emb).attempts.filter (fun t => t.speaker == s) = [] := by
  intro l
  induction l with
  | nil => intro emb _; rfl
  | cons t ts ih =>
    intro emb hemb
    by_cases hts : t.speaker = s
    · have hembt : emb t.speaker = some fp := by rw [hts]; exact hemb
      simp only [diarizeLoop, hembt]
      exact ih emb hemb
    · have hs : ¬ s = t.speaker := fun hc => hts hc.symm
      have hbeq : (t.speaker == s) = false := by simp [hts]
      simp only [diarizeLoop]
      cases h : emb t.speaker with
      | some e => exact ih emb hemb
      | none =>
        cases h2 : extr t.start t.stop with
        | some e =>
          simp only [List.filter_cons, hbeq, Bool.false_eq_true, if_false]
          refine ih (fun x => if x = t.speaker then some e else emb x) ?_
          simp only [hs, if_false, if_neg hs]
          exact hemb
        | none =>
          simp only [List.filter_cons, hbeq, Bool.false_eq_true, if_false]
          exact ih emb hemb

theorem diarizeLoop_attempts_of_none (extr : ℚ → ℚ → Option (List ℚ)) (s : String) :
    ∀ (l : List Turn) (emb : String → Option (List ℚ)), emb s = none →
      (diarizeLoop extr l emb).attempts.filter (fun t => t.speaker == s) =
        attemptsSpec extr (l.filter (fun t => t.speaker == s)) := by
  intro l
  induction l with
  | nil => intro emb _; rfl
  | cons t ts ih =>
    intro emb hemb
    by_cases hts : t.speaker = s
    · have hembt : emb t.speaker = none := by rw [hts]; exact hemb
      have hbeq : (t.speaker == s) = true := by simp [hts]
      simp only [diarizeLoop, hembt]
      cases h2 : extr t.start t.stop with
      | some e =>
        simp only [List.filter_cons, hbeq, if_true, attemptsSpec, h2]
        have hupd : (fun x => if x = t.speaker then some e else emb x) s = some e := by
          simp only [hts.symm ▸ (rfl : s = s)]
          simp [hts]
        rw [diarizeLoop_attempts_of_some extr s e ts
          (fun x => if x = t.speaker then some e else emb x) hupd]
      | none =>
        simp only [List.filter_cons, hbeq, if_true, attemptsSpec, h2]
        rw [ih emb hemb]
    · have hs : ¬ s = t.speaker := fun hc => hts hc.symm
      have hbeq : (t.speaker == s) = false := by simp [hts]
      simp only [diarizeLoop]
      cases h : emb t.speaker with
      | some e =>
        simp only [List.filter_cons, hbeq, Bool.false_eq_true, if_false]
        exact ih emb hemb
      | none =>
        cases h2 : extr t.start t.stop with
        | some e =>
          simp only [List.filter_cons, hbeq, Bool.false_eq_true, if_false]
          refine ih (fun x => if x = t.speaker then some e else emb x) ?_
          simp only [if_neg hs]
          exact hemb
        | none =>
          simp only [List.filter_cons, hbeq, Bool.false_eq_true, if_false]
          exact ih emb hemb

theorem diarizeLoop_emb_of_some (extr : ℚ → ℚ → Option (List ℚ)) (s : String)
    (fp : List ℚ) :
    ∀ (l : List Turn) (emb : String → Option (List ℚ)), emb s = some fp →
      (diarizeLoop extr l emb).emb s = some fp := by
  intro l
  induction l with
  | nil => intro emb hemb; exact hemb
  | cons t ts ih =>
    intro emb hemb
    simp only [diarizeLoop]
    cases h : emb t.speaker with
    | some e => exact ih emb hemb
    | none =>
      have hs : ¬ s = t.speaker := by
        intro hc
        rw [hc] at hemb
        rw [hemb] at h
        cases h
      cases h2 : extr t.start t.stop with
      | some e =>
        refine ih (fun x => if x = t.speaker then some e else emb x) ?_
        simp only [if_neg hs]
        exact hemb
      | none => exact ih emb hemb

theorem diarizeLoop_emb_of_none (extr : ℚ → ℚ → Option (List ℚ)) (s : String) :
    ∀ (l : List Turn) (emb : String → Option (List ℚ)), emb s = none →
      (diarizeLoop extr l emb).emb s =
        (l.filter (fun t => t.speaker == s)).findSome?
          (fun t => extr t.start t.stop) := by
  intro l
  induction l with
  | nil => intro emb hemb; exact hemb
  | cons t ts ih =>
    intro emb hemb
    by_cases hts : t.speaker = s
    · have hembt : emb t.speaker = none := by rw [hts]; exact hemb
      have hbeq : (t.speaker == s) = true := by simp [hts]
      simp only [diarizeLoop, hembt]
      cases h2 : extr t.start t.stop with
      | some e =>
        have hupd : (fun x => if x = t.speaker then some e else emb x) s = some e := by
          simp [hts]
        rw [diarizeLoop_emb_of_some extr s e ts
          (fun x => if x = t.speaker then some e else emb x) hupd]
        simp [List.filter_cons, hbeq, List.findSome?_cons, h2]
      | none =>
        rw [ih emb hemb]
        simp [List.filter_cons, hbeq, List.findSome?_cons, h2]
    · have hs : ¬ s = t.speaker := fun hc => hts hc.symm
      have hbeq : (t.speaker == s) = false := by simp [hts]
      simp only [diarizeLoop]
      cases h : emb t.speaker with
      | some e =>
        rw [ih emb hemb]
        simp [List.filter_cons, hbeq]
      | none =>
        cases h2 : extr t.start t.stop with
        | some e =>
          rw [ih (fun x => if x = t.speaker then some e else emb x)
            (by simp only [if_neg hs]; exact hemb)]
          simp [List.filter_cons, hbeq]
        | none =>
          rw [ih emb hemb]
          simp [List.filter_cons, hbeq]

/-! ### Helper lemmas about the statistics map and the set contract -/

theorem lookup_map_self (f : String → SpeakerStat) (s : String) :
    ∀ (l : List String), s ∈ l →
      List.lookup s (l.map (fun x => (x, f x))) = some (f s) := by
  intro l
  induction l with
  | nil => intro h; cases h
  | cons x xs ih =>
    intro hmem
    by_cases hx : s = x
    · subst hx
      simp [List.lookup]
    · have : s ∈ xs := by
        cases hmem with
        | head => exact absurd rfl hx
        | tail _ h => exact h
      have hbeq : (s == x) = false := by simp [hx]
      simp [List.lookup, hbeq, ih this]

theorem filter_map_mkSegment (s : String) :
    ∀ (l : List Turn),
      (l.map mkSegment).filter (fun seg => seg.speaker_id == s) =
        (l.filter (fun t => t.speaker == s)).map mkSegment := by
  intro l
  induction l with
  | nil => rfl
  | cons t ts ih =>
    by_cases hts : t.speaker = s
    · have : (t.speaker == s) = true := by simp [hts]
      simp [List.filter_cons, mkSegment, this, ih]
    · have : (t.speaker == s) = false := by simp [hts]
      simp [List.filter_cons, mkSegment, this, ih]

theorem dedup_SetContract : SetContract List.dedup := by
  intro l
  exact ⟨l.nodup_dedup, fun x => List.mem_dedup⟩

theorem revDedup_SetContract : SetContract revDedup := by
  intro l
  constructor
  · rw [revDedup, List.nodup_reverse]
    exact l.nodup_dedup
  · intro x
    rw [revDedup, List.mem_reverse]
    exact List.mem_dedup

/-- The speaker ids of the produced segments are the input turns' speakers. -/
theorem diarize_audio_segment_ids (pyset : List String → List String)
    (extr : ℚ → ℚ → Option (List ℚ)) (turns : List Turn) :
    (diarize_audio pyset extr turns).segments.map Segment.speaker_id =
      turns.map Turn.speaker := by
  show ((diarizeLoop extr turns (fun _ => none)).segments.map Segment.speaker_id) = _
  rw [diarizeLoop_segments]
  rw [List.map_map]
  rfl

/-- The keys of `speaker_stats`, in order, are exactly the `speakers` list:
the stats dict is built by one insertion per element of `unique_speakers`. -/
theorem diarize_audio_stats_keys (pyset : List String → List String)
    (extr : ℚ → ℚ → Option (List ℚ)) (turns : List Turn) :
    (diarize_audio pyset extr turns).speaker_stats.map Prod.fst =
      (diarize_audio pyset extr turns).speakers := by
  show (List.map Prod.fst (List.map _ _)) = _
  rw [List.map_map]
  exact List.map_id _

/-- Looking up any observed speaker in `speaker_stats` yields the record
with the turn count and exact duration sum for that speaker. -/
theorem diarize_audio_stats_lookup (pyset : List String → List String)
    (extr : ℚ → ℚ → Option (List ℚ)) (turns : List Turn) (s : String)
    (hset : SetContract pyset) (hs : s ∈ turns.map Turn.speaker) :
    ∃ st : SpeakerStat,
      List.lookup s (diarize_audio pyset extr turns).speaker_stats = some st ∧
      st.total_duration =
        ((turns.filter (fun t => t.speaker == s)).map (fun t => t.stop - t.start)).sum ∧
      st.num_segments = (turns.filter (fun t => t.speaker == s)).length := by
  have hsegs : (diarizeLoop extr turns (fun _ => none)).segments = turns.map mkSegment :=
    diarizeLoop_segments extr turns _
  have hmem : s ∈ pyset ((diarizeLoop extr turns (fun _ => none)).segments.map
      Segment.speaker_id) := by
    rw [hsegs, List.map_map]
    refine ((hset _).2 s).mpr ?_
    exact hs
  refine ⟨_, lookup_map_self _ s _ hmem, ?_, ?_⟩
  · show ((((diarizeLoop extr turns (fun _ => none)).segments.filter
        (fun seg => seg.speaker_id == s)).map Segment.duration).sum) = _
    rw [hsegs, filter_map_mkSegment, List.map_map]
    rfl
  · show (((diarizeLoop extr turns (fun _ => none)).segments.filter
        (fun seg => seg.speaker_id == s)).length) = _
    rw [hsegs, filter_map_mkSegment, List.length_map]

/-! ### Helper lemmas about the comparator -/

theorem dot_nil (b : List ℝ) : dot [] b = 0 := by
  cases b <;> rfl

theorem dot_nil_right (a : List ℝ) : dot a [] = 0 := by
  cases a <;> rfl

theorem dot_self_nonneg : ∀ a : List ℝ, 0 ≤ dot a a := by
  intro a
  induction a with
  | nil => rw [dot_nil]
  | cons x xs ih =>
    show 0 ≤ x * x + dot xs xs
    nlinarith [mul_self_nonneg x]

theorem dot_comm : ∀ a b : List ℝ, dot a b = dot b a := by
  intro a
  induction a with
  | nil => intro b; rw [dot_nil, dot_nil_right]
  | cons x xs ih =>
    intro b
    cases b with
    | nil => rw [dot_nil, dot_nil_right]
    | cons y ys =>
      show x * y + dot xs ys = y * x + dot ys xs
      rw [ih ys, mul_comm]

theorem dot_sq_le : ∀ a b : List ℝ, dot a b ^ 2 ≤ dot a a * dot b b := by
  intro a
  induction a with
  | nil =>
    intro b
    rw [dot_nil, dot_nil]
    simp
  | cons x xs ih =>
    intro b
    cases b with
    | nil =>
      rw [dot_nil_right, dot_nil_right]
      simp
    | cons y ys =>
      have hA := dot_self_nonneg xs
      have hB := dot_self_nonneg ys
      have hD := ih ys
      show (x * y + dot xs ys) ^ 2 ≤
        (x * x + dot xs xs) * (y * y + dot ys ys)
      rcases eq_or_lt_of_le hB with hB0 | hB0
      · have hD2 : dot xs ys ^ 2 ≤ 0 := by nlinarith
        have hD0 : dot xs ys = 0 := by nlinarith [sq_nonneg (dot xs ys)]
        rw [hD0, ← hB0]
        nlinarith [mul_nonneg hA (mul_self_nonneg y), sq_nonneg (x * y)]
      · nlinarith [sq_nonneg (x * dot ys ys - y * dot xs ys),
          mul_nonneg (sub_nonneg.mpr hD) (mul_self_nonneg y),
          mul_nonneg (sub_nonneg.mpr hD) hB0.le]

theorem abs_dot_le (a b : List ℝ) : |dot a b| ≤ norm a * norm b := by
  calc |dot a b| = Real.sqrt (dot a b ^ 2) := (Real.sqrt_sq_eq_abs _).symm
    _ ≤ Real.sqrt (dot a a * dot b b) := Real.sqrt_le_sqrt (dot_sq_le a b)
    _ = norm a * norm b := by
        show Real.sqrt (dot a a * dot b b) =
          Real.sqrt (dot a a) * Real.sqrt (dot b b)
        exact Real.sqrt_mul (dot_self_nonneg a) (dot b b)

/-! ### Claim theorems -/

/-- C1: For every input turn sequence accepted by `diarize_audio`, the set of
keys of the returned `speaker_stats` mapping equals the returned `speakers`
list as a set, which equals the set of distinct `speaker_id` values occurring
in the returned segments, even when a speaker's turns are non-contiguous or a
speaker reappears after a gap.  (`pyset` is any function satisfying Python's
`list(set(...))` contract.) -/
theorem speaker_keys_bijection (pyset : List String → List String)
    (extr : ℚ → ℚ → Option (List ℚ)) (turns : List Turn)
    (hset : SetContract pyset) :
    ((diarize_audio pyset extr turns).speaker_stats.map Prod.fst).toFinset =
      (diarize_audio pyset extr turns).speakers.toFinset ∧
    (diarize_audio pyset extr turns).speakers.toFinset =
      ((diarize_audio pyset extr turns).segments.map Segment.speaker_id).toFinset := by
  refine ⟨by rw [diarize_audio_stats_keys], ?_⟩
  ext x
  simp only [List.mem_toFinset]
  exact (hset _).2 x

/-- Witness for C1, on the spec's scenario turns, where speaker "A"
reappears after a gap. -/
theorem speaker_keys_bijection_w :
    SetContract List.dedup ∧
    (((diarize_audio List.dedup (fun _ _ => none) scenarioTurns).speaker_stats.map
        Prod.fst).toFinset =
      (diarize_audio List.dedup (fun _ _ => none) scenarioTurns).speakers.toFinset ∧
     (diarize_audio List.dedup (fun _ _ => none) scenarioTurns).speakers.toFinset =
      ((diarize_audio List.dedup (fun _ _ => none) scenarioTurns).segments.map
        Segment.speaker_id).toFinset) :=
  ⟨dedup_SetContract,
   speaker_keys_bijection List.dedup (fun _ _ => none) scenarioTurns dedup_SetContract⟩

/-- C2: For every speaker observed in the input turns, the returned record
has `num_segments` equal to the number of that speaker's turns, and
`total_duration` equal to the exact sum of `end - start` over those turns
(the model uses exact rational arithmetic, so the 1e-9 tolerance is met
with equality). -/
theorem speaker_stats_totals (pyset : List String → List String)
    (extr : ℚ → ℚ → Option (List ℚ)) (turns : List Turn) (s : String)
    (hset : SetContract pyset) (hs : s ∈ turns.map Turn.speaker) :
    ∃ st : SpeakerStat,
      List.lookup s (diarize_audio pyset extr turns).speaker_stats = some st ∧
      st.total_duration =
        ((turns.filter (fun t => t.speaker == s)).map (fun t => t.stop - t.start)).sum ∧
      st.num_segments = (turns.filter (fun t => t.speaker == s)).length :=
  diarize_audio_stats_lookup pyset extr turns s hset hs

/-- Witness for C2: the spec scenario `[("A",0,2),("B",2,5),("A",5,6)]`
gives A total 3 over 2 segments and B total 3 over 1 segment. -/
theorem speaker_stats_totals_w :
    (∃ st : SpeakerStat,
       List.lookup "A" (diarize_audio List.dedup (fun _ _ => none)
         scenarioTurns).speaker_stats = some st ∧
       st.total_duration = 3 ∧ st.num_segments = 2) ∧
    (∃ st : SpeakerStat,
       List.lookup "B" (diarize_audio List.dedup (fun _ _ => none)
         scenarioTurns).speaker_stats = some st ∧
       st.total_duration = 3 ∧ st.num_segments = 1) := by
  constructor
  · obtain ⟨st, h1, h2, h3⟩ := speaker_stats_totals List.dedup (fun _ _ => none)
      scenarioTurns "A" dedup_SetContract (by decide)
    exact ⟨st, h1,
      h2.trans (by norm_num [scenarioTurns, List.filter_cons,
        show ("B":String) ≠ "A" from by decide]),
      h3.trans (by decide)⟩
  · obtain ⟨st, h1, h2, h3⟩ := speaker_stats_totals List.dedup (fun _ _ => none)
      scenarioTurns "B" dedup_SetContract (by decide)
    exact ⟨st, h1,
      h2.trans (by norm_num [scenarioTurns, List.filter_cons,
        show ("A":String) ≠ "B" from by decide]),
      h3.trans (by decide)⟩

/-- C9 (amended): the returned segments are exactly the input turns in their
original order, and the keys of `speaker_stats` iterate in the same order as
the `speakers` list; but that common order is Python's unspecified `set`
iteration order, NOT first-seen order (see the counterexample). -/
theorem result_order (pyset : List String → List String)
    (extr : ℚ → ℚ → Option (List ℚ)) (turns : List Turn) :
    (diarize_audio pyset extr turns).segments = turns.map mkSegment ∧
    (diarize_audio pyset extr turns).speaker_stats.map Prod.fst =
      (diarize_audio pyset extr turns).speakers :=
  ⟨diarizeLoop_segments extr turns (fun _ => none),
   diarize_audio_stats_keys pyset extr turns⟩

/-- Counterexample for C9: a `list(set(...))` order satisfying everything
CPython guarantees under which the `speakers` list is NOT in first-seen
order ("A" is seen first, yet the list is `["B","A"]`).  The code
(`unique_speakers = list(set(...))`, line 103) guarantees nothing stronger
than `SetContract`, since CPython's set iteration order for strings is
hash-randomised. -/
theorem speakers_not_first_seen :
    SetContract revDedup ∧
    (diarize_audio revDedup (fun _ _ => none)
      [⟨"A", 0, 1⟩, ⟨"B", 1, 2⟩]).speakers = ["B", "A"] :=
  ⟨revDedup_SetContract, by decide⟩

/-- C10: `num_speakers` equals the length of the `speakers` list, which
equals the number of keys of `speaker_stats` (the keys are exactly
`speakers`, duplicate-free, so the dict has one entry per speaker). -/
theorem counts_consistent (pyset : List String → List String)
    (extr : ℚ → ℚ → Option (List ℚ)) (turns : List Turn)
    (hset : SetContract pyset) :
    (diarize_audio pyset extr turns).num_speakers =
      (diarize_audio pyset extr turns).speakers.length ∧
    (diarize_audio pyset extr turns).speaker_stats.length =
      (diarize_audio pyset extr turns).speakers.length ∧
    (diarize_audio pyset extr turns).speakers.Nodup := by
  refine ⟨rfl, ?_, (hset _).1⟩
  show (List.map _ _).length = _
  rw [List.length_map]
  rfl

/-- Witness for C10, on the empty turn stream: all three counts are zero. -/
theorem counts_consistent_w :
    SetContract List.dedup ∧
    ((diarize_audio List.dedup (fun _ _ => none) []).num_speakers =
       (diarize_audio List.dedup (fun _ _ => none) []).speakers.length ∧
     (diarize_audio List.dedup (fun _ _ => none) []).speaker_stats.length =
       (diarize_audio List.dedup (fun _ _ => none) []).speakers.length ∧
     (diarize_audio List.dedup (fun _ _ => none) []).speakers.Nodup) ∧
    (diarize_audio List.dedup (fun _ _ => none) []).num_speakers = 0 :=
  ⟨dedup_SetContract,
   counts_consistent List.dedup (fun _ _ => none) [] dedup_SetContract,
   rfl⟩

/-- C3 (amended): aggregation never fails — the code contains no turn
validation at all.  A turn with `end ≤ start` or `start < 0` is processed
like any other, contributing `end - start` (possibly nonpositive) to the
speaker's totals, and a full result is produced. -/
theorem aggregate_never_fails (pyset : List String → List String)
    (extr : ℚ → ℚ → Option (List ℚ)) (s : String) (a b : ℚ)
    (hset : SetContract pyset) :
    (diarize_audio pyset extr [⟨s, a, b⟩]).segments = [⟨s, a, b, b - a⟩] ∧
    ∃ st : SpeakerStat,
      List.lookup s (diarize_audio pyset extr [⟨s, a, b⟩]).speaker_stats = some st ∧
      st.total_duration = b - a ∧ st.num_segments = 1 := by
  constructor
  · exact (diarizeLoop_segments extr [⟨s, a, b⟩] (fun _ => none)).trans rfl
  · obtain ⟨st, h1, h2, h3⟩ :=
      diarize_audio_stats_lookup pyset extr [⟨s, a, b⟩] s hset (by simp)
    refine ⟨st, h1, ?_, ?_⟩
    · rw [h2]
      simp [List.filter_cons]
    · rw [h3]
      simp [List.filter_cons]

/-- Witness for C3's amended claim at the spec's own failing input
`start = 10, end = 4`: the call succeeds and accounts duration `-6`. -/
theorem aggregate_never_fails_w :
    SetContract List.dedup ∧
    (diarize_audio List.dedup (fun _ _ => none) [⟨"A", 10, 4⟩]).segments =
      [⟨"A", 10, 4, -6⟩] ∧
    ∃ st : SpeakerStat,
      List.lookup "A" (diarize_audio List.dedup (fun _ _ => none)
        [⟨"A", 10, 4⟩]).speaker_stats = some st ∧
      st.total_duration = -6 ∧ st.num_segments = 1 := by
  have h := aggregate_never_fails List.dedup (fun _ _ => none) "A" 10 4 dedup_SetContract
  refine ⟨dedup_SetContract, ?_, ?_⟩
  · rw [h.1]
    norm_num
  · obtain ⟨st, h1, h2, h3⟩ := h.2
    exact ⟨st, h1, h2.trans (by norm_num), h3⟩

/-- Counterexample for C3: the spec says a turn with `start=10, end=4` must
make the whole call fail with `InvalidTurn` and produce no result; the code
has no validation and returns this complete, ordinary result instead. -/
theorem invalid_turn_yields_result :
    diarize_audio List.dedup (fun _ _ => none) [⟨"A", 10, 4⟩] =
      ⟨[⟨"A", 10, 4, -6⟩], ["A"], 1, [("A", ⟨-6, 1, []⟩)], [⟨"A", 10, 4⟩]⟩ := by
  simp only [diarize_audio, diarizeLoop]
  norm_num [mkSegment, List.filter_cons, List.dedup_cons_of_not_mem]

/-- C4 (amended): for every speaker, fingerprint extraction is attempted on
each of that speaker's turns, in input order, until an attempt succeeds: the
first turn is always attempted; a FAILED attempt is re-attempted on the
speaker's next turn (the claim's "no re-attempt after failure" is false —
see the counterexample); after a success no later turn of that speaker
re-attempts.  `attemptsSpec` is exactly this until-first-success pattern. -/
theorem extraction_attempt_pattern (pyset : List String → List String)
    (extr : ℚ → ℚ → Option (List ℚ)) (turns : List Turn) (s : String)
    (hset : SetContract pyset) (hs : s ∈ turns.map Turn.speaker) :
    ((diarize_audio pyset extr turns).attempts.filter (fun t => t.speaker == s) =
      attemptsSpec extr (turns.filter (fun t => t.speaker == s))) ∧
    ∃ st : SpeakerStat,
      List.lookup s (diarize_audio pyset extr turns).speaker_stats = some st ∧
      st.embedding =
        ((turns.filter (fun t => t.speaker == s)).findSome?
          (fun t => extr t.start t.stop)).getD [] := by
  constructor
  · exact diarizeLoop_attempts_of_none extr s turns (fun _ => none) rfl
  · have hmem : s ∈ pyset ((diarizeLoop extr turns (fun _ => none)).segments.map
        Segment.speaker_id) := by
      rw [diarizeLoop_segments, List.map_map]
      refine ((hset _).2 s).mpr ?_
      exact hs
    refine ⟨_, lookup_map_self _ s _ hmem, ?_⟩
    show ((diarizeLoop extr turns (fun _ => none)).emb s).getD [] = _
    rw [diarizeLoop_emb_of_none extr s turns (fun _ => none) rfl]

/-- Witness for C4's amended claim: speaker "A" has two turns and the
extractor always fails; the attempts list shows both turns attempted
(retry after failure), and the stored fingerprint is absent
(`embedding = []`) because every attempt failed. -/
theorem extraction_attempt_pattern_w :
    SetContract List.dedup ∧
    "A" ∈ ([⟨"A", 0, 1⟩, ⟨"A", 1, 2⟩] : List Turn).map Turn.speaker ∧
    ((diarize_audio List.dedup (fun _ _ => none)
       [⟨"A", 0, 1⟩, ⟨"A", 1, 2⟩]).attempts.filter (fun t => t.speaker == "A") =
      attemptsSpec (fun _ _ => none)
        (([⟨"A", 0, 1⟩, ⟨"A", 1, 2⟩] : List Turn).filter
          (fun t => t.speaker == "A"))) ∧
    ∃ st : SpeakerStat,
      List.lookup "A" (diarize_audio List.dedup (fun _ _ => none)
        [⟨"A", 0, 1⟩, ⟨"A", 1, 2⟩]).speaker_stats = some st ∧
      st.embedding = [] := by
  have h := extraction_attempt_pattern List.dedup (fun _ _ => none)
    [⟨"A", 0, 1⟩, ⟨"A", 1, 2⟩] "A" dedup_SetContract (by decide)
  obtain ⟨st, h1, h2⟩ := h.2
  exact ⟨dedup_SetContract, by decide, h.1, st, h1, h2.trans (by decide)⟩

/-- Counterexample for C4: with an always-failing extractor and two turns of
the single speaker "A", extraction is attempted twice — the claim's
"at most once per speaker" is false on the code (a failed extraction leaves
`speaker_embeddings` without the key, so the `if speaker not in
speaker_embeddings` guard re-attempts on the next turn). -/
theorem extraction_reattempted_after_failure :
    ((diarize_audio List.dedup (fun _ _ => none)
      [⟨"A", 0, 1⟩, ⟨"A", 1, 2⟩]).attempts).length = 2 := by
  decide

/-- C5 (amended): the code applies no minimum-window check — for the
degenerate turn `("A", 5, 5.05)` (duration 0.05 s) extraction IS attempted;
when the external extractor fails on it, the failure is non-fatal: the
fingerprint stays absent (`embedding = []`) while `total_duration` and
`num_segments` account for the turn normally. -/
theorem degenerate_span_attempted (extr : ℚ → ℚ → Option (List ℚ))
    (h : extr 5 (101/20) = none) :
    diarize_audio List.dedup extr [⟨"A", 5, 101/20⟩] =
      ⟨[⟨"A", 5, 101/20, 1/20⟩], ["A"], 1, [("A", ⟨1/20, 1, []⟩)],
       [⟨"A", 5, 101/20⟩]⟩ := by
  simp only [diarize_audio, diarizeLoop]
  norm_num [h, mkSegment, List.filter_cons, List.dedup_cons_of_not_mem]

/-- Witness for C5's amended claim, with the always-failing extractor. -/
theorem degenerate_span_attempted_w :
    (fun _ _ => (none : Option (List ℚ))) (5 : ℚ) (101/20 : ℚ) = none ∧
    diarize_audio List.dedup (fun _ _ => none) [⟨"A", 5, 101/20⟩] =
      ⟨[⟨"A", 5, 101/20, 1/20⟩], ["A"], 1, [("A", ⟨1/20, 1, []⟩)],
       [⟨"A", 5, 101/20⟩]⟩ :=
  ⟨rfl, degenerate_span_attempted (fun _ _ => none) rfl⟩

/-- Counterexample for C5: the claim says extraction on a span below the
0.1 s minimum is "skipped without being attempted" so the fingerprint "stays
permanently absent".  The code has no such check: the attempt happens
(`attempts` is nonempty) and with an extractor that succeeds on the 0.05 s
span the fingerprint is stored, not absent. -/
theorem degenerate_span_not_skipped :
    diarize_audio List.dedup (fun _ _ => some [1]) [⟨"A", 5, 101/20⟩] =
      ⟨[⟨"A", 5, 101/20, 1/20⟩], ["A"], 1, [("A", ⟨1/20, 1, [1]⟩)],
       [⟨"A", 5, 101/20⟩]⟩ := by
  simp only [diarize_audio, diarizeLoop]
  norm_num [mkSegment, List.filter_cons, List.dedup_cons_of_not_mem]

/-- C6 (amended): the comparator returns a value exactly when the two
fingerprints have the same length (on mismatch, numpy's `np.dot` raises
`ValueError`, uncaught).  In particular zero norms are NOT detected: no
`ZeroNorm` failure path exists, so a zero-norm input still yields a
returned value (see the counterexample). -/
theorem compare_ok_iff_length (a b : List ℝ) :
    (∃ v, compare_speakers a b = Except.ok v) ↔ a.length = b.length := by
  unfold compare_speakers
  by_cases h : a.length = b.length
  · simp [h]
  · simp [h]

/-- Counterexample for C6: `[0]` has Euclidean norm zero, yet
`compare_speakers [0] [1]` does not fail — it returns a value.  (In Python
the value is NaN from `0.0/0.0`; in this real-valued model the junk value
of division by zero makes it `(0 + 1)/2 = 1/2`.  Either way the claimed
`ZeroNorm` failure does not happen.) -/
theorem zero_norm_returns_value :
    norm [(0 : ℝ)] = 0 ∧
    compare_speakers [(0 : ℝ)] [(1 : ℝ)] = Except.ok (1 / 2) := by
  constructor
  · show Real.sqrt (dot [(0 : ℝ)] [(0 : ℝ)]) = 0
    have : dot [(0 : ℝ)] [(0 : ℝ)] = 0 := by
      show (0 : ℝ) * 0 + dot [] [] = 0
      rw [dot_nil]
      ring
    rw [this, Real.sqrt_zero]
  · unfold compare_speakers
    have hd : dot [(0 : ℝ)] [(1 : ℝ)] = 0 := by
      show (0 : ℝ) * 1 + dot [] [] = 0
      rw [dot_nil]
      ring
    norm_num [hd]

/-- C7: for equal-length fingerprints with nonzero Euclidean norms, the
comparator returns `(cos + 1) / 2` with `cos = dot/(norm·norm)`, and that
value lies in `[0, 1]` (via the Cauchy–Schwarz bound `|dot| ≤ norm·norm`). -/
theorem similarity_formula_range (a b : List ℝ) (hlen : a.length = b.length)
    (ha : norm a ≠ 0) (hb : norm b ≠ 0) :
    compare_speakers a b =
      Except.ok ((dot a b / (norm a * norm b) + 1) / 2) ∧
    0 ≤ (dot a b / (norm a * norm b) + 1) / 2 ∧
    (dot a b / (norm a * norm b) + 1) / 2 ≤ 1 := by
  have hna : 0 < norm a := lt_of_le_of_ne (Real.sqrt_nonneg _) (Ne.symm ha)
  have hnb : 0 < norm b := lt_of_le_of_ne (Real.sqrt_nonneg _) (Ne.symm hb)
  have hprod : 0 < norm a * norm b := mul_pos hna hnb
  have hcos : |dot a b / (norm a * norm b)| ≤ 1 := by
    rw [abs_div, abs_of_pos hprod]
    exact div_le_one_of_le₀ (abs_dot_le a b) hprod.le
  have h1 := abs_le.mp hcos
  refine ⟨?_, by linarith [h1.1], by linarith [h1.2]⟩
  unfold compare_speakers
  simp [hlen]

/-- Witness for C7 at the spec's scenario: orthogonal unit vectors
`[1,0,0]` and `[0,1,0]` give similarity exactly `1/2`, inside `[0,1]`. -/
theorem similarity_formula_range_w :
    compare_speakers [(1 : ℝ), 0, 0] [0, 1, 0] = Except.ok (1 / 2) ∧
    (0 : ℝ) ≤ 1 / 2 ∧ (1 / 2 : ℝ) ≤ 1 := by
  have hda : dot [(1 : ℝ), 0, 0] [(1 : ℝ), 0, 0] = 1 := by
    show (1 : ℝ) * 1 + ((0 : ℝ) * 0 + ((0 : ℝ) * 0 + dot [] [])) = 1
    rw [dot_nil]
    ring
  have hdb : dot [(0 : ℝ), 1, 0] [(0 : ℝ), 1, 0] = 1 := by
    show (0 : ℝ) * 0 + ((1 : ℝ) * 1 + ((0 : ℝ) * 0 + dot [] [])) = 1
    rw [dot_nil]
    ring
  have hna : norm [(1 : ℝ), 0, 0] ≠ 0 := by
    show Real.sqrt (dot [(1 : ℝ), 0, 0] [(1 : ℝ), 0, 0]) ≠ 0
    rw [hda, Real.sqrt_one]
    norm_num
  have hnb : norm [(0 : ℝ), 1, 0] ≠ 0 := by
    show Real.sqrt (dot [(0 : ℝ), 1, 0] [(0 : ℝ), 1, 0]) ≠ 0
    rw [hdb, Real.sqrt_one]
    norm_num
  have h := similarity_formula_range [(1 : ℝ), 0, 0] [0, 1, 0] rfl hna hnb
  have hdot : dot [(1 : ℝ), 0, 0] [0, 1, 0] = 0 := by
    show (1 : ℝ) * 0 + ((0 : ℝ) * 1 + ((0 : ℝ) * 0 + dot [] [])) = 0
    rw [dot_nil]
    ring
  refine ⟨?_, by norm_num, by norm_num⟩
  rw [h.1, hdot]
  norm_num

/-- C8: the comparator is exactly symmetric — `compare_speakers a b` equals
`compare_speakers b a` for ALL inputs (error cases included), since the dot
product and the product of norms are symmetric in their arguments.  (The
float version is also bitwise symmetric: each `a[i]*b[i]` and the norm
product commute exactly.) -/
theorem compare_speakers_symm (a b : List ℝ) :
    compare_speakers a b = compare_speakers b a := by
  unfold compare_speakers
  by_cases h : a.length = b.length
  · rw [if_neg (fun hn => hn h), if_neg (fun hn => hn h.symm)]
    rw [dot_comm a b, mul_comm (norm a) (norm b)]
  · rw [if_pos h, if_pos (fun hc => h hc.symm)]
